import Mathlib

/- Verification of the Report Verification & Style-Scoring Engine of the
AiQuarterlyReport repository.  The repository ships the engine as a Python
backend (`backend/ai/validator_simple.py`, `backend/ai/style_scorer_simple.py`)
whose sources are not part of the checked-in tree here; the engine is therefore
modelled from the specification, while the React frontend components
(`StyleScoreCard.jsx`, `ValidationCard.jsx`, `ActionButtons.jsx`) are embedded
from their sources directly.  Numbers are modelled as rationals. -/

namespace AiQuarterly

/-- Unit of a numeric claim inferred by the extractor: a percentage, an
integer count adjacent to a domain keyword, or a plain number. -/
inductive ClaimUnit where
  | percentage
  | count
  | plain
deriving DecidableEq, Repr

/-- Modelled from the spec: a NumericClaim is a value extracted from report
text with its token position and an inferred unit. -/
structure NumericClaim where
  value : ℚ
  unit : ClaimUnit
  pos : ℕ
deriving DecidableEq, Repr

/-- Modelled from the spec: one entry of the ground-truth MetricsRecord, a
named numeric value, flagged when it is a count-type (integer) metric. -/
structure MetricEntry where
  name : String
  value : ℚ
  isCount : Bool
deriving DecidableEq, Repr

/-- Absolute value written with an explicit conditional so that concrete
instances evaluate by unfolding. -/
def absQ (x : ℚ) : ℚ := if x < 0 then -x else x

/-- Render a rational for use inside a human-readable error message. -/
def ratStr (q : ℚ) : String :=
  if q.den = 1 then toString q.num
  else toString q.num ++ "/" ++ toString q.den

/-- Modelled from the spec: the default matching tolerance of 0.5 absolute
percentage points. -/
def tolerance : ℚ := mkRat 1 2

/-- Modelled from the spec: whether a metric is eligible to support a claim,
by unit — count claims match count-type metrics, percentage claims match
non-count metrics, plain numbers may match anything. -/
def compatible (c : NumericClaim) (m : MetricEntry) : Bool :=
  match c.unit with
  | .count => m.isCount
  | .percentage => !m.isCount
  | .plain => true

/-- Modelled from the spec: a claim matches a metric value within the
tolerance — exact integer match for count-type metrics, absolute difference
at most `tolerance` otherwise. -/
def withinTolerance (c : NumericClaim) (m : MetricEntry) : Bool :=
  if m.isCount then c.value == m.value
  else absQ (c.value - m.value) ≤ tolerance

/-- Modelled from the spec: the metric whose value is nearest to the claimed
value, earlier entries preferred on ties. -/
def nearestMetric (c : NumericClaim) : List MetricEntry → Option MetricEntry
  | [] => none
  | m :: ms =>
    match nearestMetric c ms with
    | none => some m
    | some m2 =>
      if absQ (c.value - m.value) ≤ absQ (c.value - m2.value) then some m
      else some m2

/-- Error text for a claim supported by no metric. -/
def unsupportedMsg (c : NumericClaim) : String :=
  "Unsupported number: " ++ ratStr c.value

/-- Error text for a claim whose nearest metric is outside tolerance, naming
both the claimed and the expected value. -/
def mismatchedMsg (c : NumericClaim) (m : MetricEntry) : String :=
  "Mismatched number: claimed " ++ ratStr c.value ++ ", expected " ++
    ratStr m.value

/-- Modelled from the spec: the errors contributed by one claim — none when
some compatible metric is within tolerance, an unsupported-number error when
no metric is compatible at all, and a mismatched-number error naming the
claimed and nearest expected value otherwise. -/
def claimErrors (metrics : List MetricEntry) (c : NumericClaim) : List String :=
  let comp := metrics.filter (fun m => compatible c m)
  if comp.isEmpty then [unsupportedMsg c]
  else if comp.any (fun m => withinTolerance c m) then []
  else
    match nearestMetric c comp with
    | some m => [mismatchedMsg c m]
    | none => [unsupportedMsg c]

/-- Result of the deterministic numeric check. -/
structure DetVerdict where
  deterministic_valid : Bool
  errors : List String
deriving DecidableEq, Repr

/-- Modelled from the spec: DeterministicValidator — pure comparison of the
extracted claims against the metrics record, valid iff no errors. -/
def deterministicValidate (claims : List NumericClaim)
    (metrics : List MetricEntry) : DetVerdict :=
  let errs := claims.flatMap (claimErrors metrics)
  { deterministic_valid := errs.isEmpty, errors := errs }

/-- Structured result of the semantic check. -/
structure SemanticResult where
  semantic_valid : Bool
  errors : List String
deriving DecidableEq, Repr

/-- Modelled from the spec: the possible outcomes of the hosted-model
collaborator call — a well-formed structured reply, a malformed reply, a
reply with missing fields, or a timeout. -/
inductive CollabResponse where
  | ok (valid : Bool) (errs : List String)
  | malformed (raw : String)
  | missingFields
  | timeout
deriving DecidableEq, Repr

/-- The single generic error reported when the collaborator reply cannot be
used. -/
def genericSemanticError : String :=
  "Semantic validation unavailable: collaborator response malformed or timed out"

/-- Modelled from the spec: defensive parsing of the collaborator reply —
malformed or missing fields or a timeout degrade to semantic_valid false with
one generic error; a total function, so the engine never crashes or blocks. -/
def parseSemanticResponse : CollabResponse → SemanticResult
  | .ok v errs => { semantic_valid := v, errors := errs }
  | .malformed _ => { semantic_valid := false, errors := [genericSemanticError] }
  | .missingFields => { semantic_valid := false, errors := [genericSemanticError] }
  | .timeout => { semantic_valid := false, errors := [genericSemanticError] }

/-- Whitespace test used by the tokenizer. -/
def isSpaceChar (c : Char) : Bool :=
  c = ' ' || c = '\n' || c = '\t' || c = '\r'

/-- Trailing punctuation stripped from a token before classification. -/
def isPunctChar (c : Char) : Bool :=
  c = '.' || c = ',' || c = ';' || c = ':' || c = ')' || c = '('

/-- Split a character list at every character satisfying `p`; the accumulator
holds the current piece reversed. -/
def splitChars (p : Char → Bool) : List Char → List Char → List (List Char)
  | [], acc => [acc.reverse]
  | c :: cs, acc =>
    if p c then acc.reverse :: splitChars p cs []
    else splitChars p cs (c :: acc)

/-- Strip trailing punctuation from a token. -/
def stripPunct (t : List Char) : List Char :=
  (t.reverse.dropWhile isPunctChar).reverse

/-- Modelled from the spec: the tokenizer of NumericExtractor — split the
report text on whitespace, strip trailing punctuation, drop empty tokens. -/
def tokenize (text : String) : List (List Char) :=
  ((splitChars isSpaceChar text.toList []).map stripPunct).filter
    (fun t => !t.isEmpty)

/-- Digit test on characters. -/
def isDigitChar (c : Char) : Bool := c.isDigit

/-- A four-digit token, the shape of a year. -/
def isFourDigit (t : List Char) : Bool :=
  t.length = 4 && t.all isDigitChar

/-- A quarter label such as `Q3`: a `Q` followed by digits. -/
def isQuarterLabel (t : List Char) : Bool :=
  match t with
  | 'Q' :: rest => !rest.isEmpty && rest.all isDigitChar
  | _ => false

/-- Numeric value of a digit string. -/
def digitsToNat (t : List Char) : ℕ :=
  t.foldl (fun n c => 10 * n + (c.toNat - 48)) 0

/-- Parse an all-digit token. -/
def parseNatTok (t : List Char) : Option ℕ :=
  if !t.isEmpty && t.all isDigitChar then some (digitsToNat t) else none

/-- Parse a decimal token such as `8.2` or `21` into a rational. -/
def parseDecimalTok (t : List Char) : Option ℚ :=
  match splitChars (fun c => c = '.') t [] with
  | [a] => (parseNatTok a).map (fun n => (n : ℚ))
  | [a, b] =>
    match parseNatTok a, parseNatTok b with
    | some x, some y => some (mkRat (x * 10 ^ b.length + y) (10 ^ b.length))
    | _, _ => none
  | _ => none

/-- Modelled from the spec: domain keywords whose adjacency marks an integer
token as a count claim, as in `21 new highs`. -/
def countKeywords : List (List Char) :=
  [['n','e','w'], ['h','i','g','h','s'], ['r','e','c','o','r','d','s'],
   ['d','a','y','s'], ['s','t','o','c','k','s']]

/-- Modelled from the spec: the year-exclusion rule — a four-digit token
immediately following a quarter label or immediately preceding one is a year,
not a numeric claim. -/
def isYearAt (ts : List (List Char)) (i : ℕ) : Bool :=
  (match ts[i]? with
   | some t => isFourDigit t
   | none => false)
  &&
  ((match i with
    | 0 => false
    | j + 1 =>
      match ts[j]? with
      | some p => isQuarterLabel p
      | none => false)
   ||
   (match ts[i + 1]? with
    | some n => isQuarterLabel n
    | none => false))

/-- Modelled from the spec: the classifier of NumericExtractor — at token
index `i`, skip year tokens, recognize percentages by their `%` suffix,
integer counts adjacent to a domain keyword, and plain decimals. -/
def classifyAt (ts : List (List Char)) (i : ℕ) : Option NumericClaim :=
  match ts[i]? with
  | none => none
  | some t =>
    if isYearAt ts i then none
    else if t.getLast? = some '%' then
      (parseDecimalTok (t.dropLast)).map
        (fun v => { value := v, unit := .percentage, pos := i })
    else
      match parseDecimalTok t with
      | none => none
      | some v =>
        if (parseNatTok t).isSome &&
            (match ts[i + 1]? with
             | some n => countKeywords.contains n
             | none => false) then
          some { value := v, unit := .count, pos := i }
        else some { value := v, unit := .plain, pos := i }

/-- Modelled from the spec: NumericExtractor — the ordered sequence of
numeric claims of a report text, in order of appearance. -/
def extractClaims (text : String) : List NumericClaim :=
  (List.range (tokenize text).length).filterMap (classifyAt (tokenize text))

/-- The combined verdict returned by one validation call. -/
structure ValidationVerdict where
  valid : Bool
  deterministic_valid : Bool
  semantic_valid : Bool
  errors : List String
deriving DecidableEq, Repr

/-- Modelled from the spec: ValidationOrchestrator — run the deterministic
validator on the extracted claims, parse the semantic collaborator reply
defensively, and combine the two sub-verdicts. -/
def validate (report : String) (metrics : List MetricEntry)
    (resp : CollabResponse) : ValidationVerdict :=
  let det := deterministicValidate (extractClaims report) metrics
  let sem := parseSemanticResponse resp
  { valid := det.deterministic_valid && sem.semantic_valid,
    deterministic_valid := det.deterministic_valid,
    semantic_valid := sem.semantic_valid,
    errors := det.errors ++ sem.errors }

/-- Stable chunk identity derived from source document and chunk offset. -/
abbrev ChunkId := String × ℕ

/-- Modelled from the spec: a CorpusChunk — stable id, text, embedding. -/
structure CorpusChunk where
  id : ChunkId
  text : String
  embedding : List ℚ
deriving DecidableEq, Repr

/-- Modelled from the spec: the VectorStore chunk collection, a list of
chunks with pairwise distinct ids. -/
abbrev VectorStore := List CorpusChunk

/-- The well-formedness invariant of a store: chunk ids are pairwise
distinct. -/
def StoreWF (s : VectorStore) : Prop := (s.map (fun c => c.id)).Nodup

/-- Modelled from the spec: upsert — overwrite in place when the id is
already present, append otherwise. -/
def upsert (s : VectorStore) (c : CorpusChunk) : VectorStore :=
  if s.any (fun x => x.id == c.id) then
    s.map (fun x => if x.id = c.id then c else x)
  else s ++ [c]

/-- Ascending order on chunk ids: lexicographic on source then offset. -/
def idLe (a b : ChunkId) : Prop := a.1 < b.1 ∨ (a.1 = b.1 ∧ a.2 ≤ b.2)

instance : DecidableRel idLe := fun a b =>
  decidable_of_iff (a.1 < b.1 ∨ (a.1 = b.1 ∧ a.2 ≤ b.2)) Iff.rfl

/-- The nearest-first order used by `query`: smaller distance first, equal
distances broken by ascending chunk id. -/
def queryRel (d : CorpusChunk → ℚ) (a b : CorpusChunk) : Prop :=
  d a < d b ∨ (d a = d b ∧ idLe a.id b.id)

instance (d : CorpusChunk → ℚ) : DecidableRel (queryRel d) := fun a b =>
  decidable_of_iff (d a < d b ∨ (d a = d b ∧ idLe a.id b.id)) Iff.rfl

/-- Modelled from the spec: `query(vector, k)` — the k chunks nearest to the
query vector under the distance `dist`, nearest first, ties broken by
ascending id, `k` clamped to the store size.  The engine treats embeddings as
opaque keys for distance computation, so the cosine distance is a parameter. -/
def query (dist : List ℚ → List ℚ → ℚ) (s : VectorStore) (v : List ℚ)
    (k : ℕ) : List CorpusChunk :=
  (List.insertionSort (queryRel (fun c => dist c.embedding v)) s).take k

/-- Modelled from the spec: minimum chunk length below which a paragraph is
merged with its neighbor instead of stored standalone. -/
def minChunkLen : ℕ := 40

/-- Fuel-driven merge of short paragraphs with their successor; the fuel is
an upper bound on the number of merge steps, so the recursion is
structural. -/
def mergeShortFuel : ℕ → List (List Char) → List (List Char)
  | 0, l => l
  | _ + 1, [] => []
  | _ + 1, [p] => [p]
  | fuel + 1, p :: q :: rest =>
    if p.length < minChunkLen then
      mergeShortFuel fuel ((p ++ '\n' :: '\n' :: q) :: rest)
    else p :: mergeShortFuel fuel (q :: rest)

/-- Modelled from the spec: a chunk below the minimum length is merged with
its neighbor rather than stored standalone. -/
def mergeShort (ps : List (List Char)) : List (List Char) :=
  mergeShortFuel ps.length ps

/-- Split a character list on blank lines (two consecutive newlines). -/
def splitParas : List Char → List Char → List (List Char)
  | [], acc => [acc.reverse]
  | '\n' :: '\n' :: cs, acc => acc.reverse :: splitParas cs []
  | c :: cs, acc => splitParas cs (c :: acc)

/-- Modelled from the spec: paragraph boundaries of a document — split on
blank lines and drop all-whitespace pieces. -/
def paragraphsOf (text : String) : List (List Char) :=
  (splitParas text.toList []).filter (fun p => p.any (fun c => !isSpaceChar c))

/-- Modelled from the spec: CorpusIngestor chunking of one document — split
on paragraph boundaries, merge short fragments, derive the stable id from the
source name and the chunk offset, embed each chunk. -/
def chunkDocument (embed : String → List ℚ) (src : String) (text : String) :
    List CorpusChunk :=
  (mergeShort (paragraphsOf text)).enum.map
    (fun pr => { id := (src, pr.1), text := ⟨pr.2⟩, embedding := embed ⟨pr.2⟩ })

/-- Modelled from the spec: all chunks of a corpus of (source, text)
documents. -/
def corpusChunks (embed : String → List ℚ) (corpus : List (String × String)) :
    List CorpusChunk :=
  corpus.flatMap (fun doc => chunkDocument embed doc.1 doc.2)

/-- Modelled from the spec: CorpusIngestor ingestion — push every chunk of
the corpus through the embedding provider into the store by upsert. -/
def ingest (embed : String → List ℚ) (s : VectorStore)
    (corpus : List (String × String)) : VectorStore :=
  (corpusChunks embed corpus).foldl upsert s

/-- Clamp a rational into an interval. -/
def clampQ (lo hi x : ℚ) : ℚ := max lo (min hi x)

/-- Maximum of the structural sub-score. -/
def structuralMax : ℚ := 20

/-- Maximum of the language-quality sub-score. -/
def languageMax : ℚ := 50

/-- Maximum of the historical-similarity sub-score. -/
def historicalMax : ℚ := 30

/-- Modelled from the spec: structural sub-score detail — word count,
paragraph count, and a score degrading linearly outside the target band. -/
structure StructuralScore where
  score : ℚ
  max : ℚ
  word_count : ℕ
  paragraph_count : ℕ
deriving DecidableEq, Repr

/-- Word-count half of the structural score: full marks inside the 150 to
400 word target band, linear degradation outside, floored at 0. -/
def wordBandScore (w : ℕ) : ℚ :=
  if w < 150 then clampQ 0 10 (10 - mkRat (150 - w) 10)
  else if w ≤ 400 then 10
  else clampQ 0 10 (10 - mkRat (w - 400) 10)

/-- Paragraph-count half of the structural score: full marks at the
two-paragraph target, linear degradation away from it, floored at 0. -/
def paraBandScore (p : ℕ) : ℚ :=
  if p = 2 then 10
  else clampQ 0 10 (10 - 5 * mkRat (if p < 2 then 2 - p else p - 2) 1)

/-- Number of words of a report text. -/
def wordCount (text : String) : ℕ := (tokenize text).length

/-- Number of paragraphs of a report text. -/
def paragraphCount (text : String) : ℕ := (paragraphsOf text).length

/-- Modelled from the spec: the structural sub-score of a report — a pure
function of word count and paragraph count against fixed target ranges. -/
def structuralScore (text : String) : StructuralScore :=
  { score := wordBandScore (wordCount text) + paraBandScore (paragraphCount text),
    max := structuralMax,
    word_count := wordCount text,
    paragraph_count := paragraphCount text }

/-- One dimension rated by the language-quality judge: a name, a 0 to 10
score and a short comment. -/
structure DimensionRating where
  dimension : String
  score : ℚ
  comment : String
deriving DecidableEq, Repr

/-- Modelled from the spec: language-quality sub-score detail — per-dimension
score and comment surfaced verbatim, plus the normalized sub-score. -/
structure LanguageScore where
  score : ℚ
  max : ℚ
  details : List DimensionRating
deriving DecidableEq, Repr

/-- Defensive clamp of a judged dimension into its documented 0 to 10
range. -/
def clampRating (r : DimensionRating) : DimensionRating :=
  { r with score := clampQ 0 10 r.score }

/-- Modelled from the spec: the language-quality sub-score — sum the judged
dimensions, normalize to the sub-score maximum, surface the details. -/
def languageScore (ratings : List DimensionRating) : LanguageScore :=
  let cl := ratings.map clampRating
  { score := if cl.length = 0 then 0
             else (cl.map (fun r => r.score)).sum / (10 * cl.length) * languageMax,
    max := languageMax,
    details := cl }

/-- Modelled from the spec: historical-similarity sub-score detail — average
similarity percentage and a consistency note. -/
structure HistoricalScore where
  score : ℚ
  max : ℚ
  avg_similarity : ℚ
  consistency_note : String
deriving DecidableEq, Repr

/-- Convert one cosine distance to a similarity percentage clamped to the 0
to 100 range. -/
def similarityOf (d : ℚ) : ℚ := clampQ 0 100 ((1 - d) * 100)

/-- Note texts synthesized from the spread of the top-k similarities. -/
def consistencyNote (sims : List ℚ) : String :=
  if 30 < sims.foldr max 0 - sims.foldr min 100 then "mixed consistency"
  else "consistent with historical reports"

/-- Average of a list of rationals. -/
def avgOf (l : List ℚ) : ℚ := l.sum / l.length

/-- Modelled from the spec: the historical-similarity sub-score — query the
store for the 3 nearest chunks, convert distances to similarities, average
them into the sub-score range; an empty result degrades to a zero score with
a no-historical-data note. -/
def historicalScore (dist : List ℚ → List ℚ → ℚ) (s : VectorStore)
    (emb : List ℚ) : HistoricalScore :=
  let results := query dist s emb 3
  if results.isEmpty then
    { score := 0, max := historicalMax, avg_similarity := 0,
      consistency_note := "no historical data" }
  else
    let sims := results.map (fun c => similarityOf (dist c.embedding emb))
    { score := avgOf sims / 100 * historicalMax, max := historicalMax,
      avg_similarity := avgOf sims, consistency_note := consistencyNote sims }

/-- Modelled from the spec: the fixed grade step function — A at 90 and
above, B at 75, C at 60, D at 45, F below. -/
def gradeOf (s : ℤ) : String :=
  if 90 ≤ s then "A"
  else if 75 ≤ s then "B"
  else if 60 ≤ s then "C"
  else if 45 ≤ s then "D"
  else "F"

/-- Modelled from the spec: the aggregate style score — the weighted sum of
the max-normalized sub-scores with fixed weights 20, 50 and 30, rounded. -/
def aggregateScore (st : StructuralScore) (lq : LanguageScore)
    (hs : HistoricalScore) : ℤ :=
  round (st.score / st.max * 20 + lq.score / lq.max * 50 + hs.score / hs.max * 30)

/-- The full style-score breakdown returned by one scoring call. -/
structure StyleScoreBreakdown where
  structural : StructuralScore
  language_quality : LanguageScore
  historical_similarity : HistoricalScore
  style_score : ℤ
  grade : String
deriving DecidableEq, Repr

/-- Modelled from the spec: StyleScorer — compute the three sub-scores,
aggregate them, and derive the letter grade. -/
def styleBreakdown (dist : List ℚ → List ℚ → ℚ) (s : VectorStore)
    (embed : String → List ℚ) (ratings : List DimensionRating)
    (report : String) : StyleScoreBreakdown :=
  let st := structuralScore report
  let lq := languageScore ratings
  let hs := historicalScore dist s (embed report)
  { structural := st, language_quality := lq, historical_similarity := hs,
    style_score := aggregateScore st lq hs,
    grade := gradeOf (aggregateScore st lq hs) }

/-- A minimal JSON value model for the serialized engine responses. -/
inductive Json where
  | num (q : ℚ)
  | int (z : ℤ)
  | str (s : String)
  | arr (xs : List Json)
  | obj (fields : List (String × Json))

/-- Field lookup in a JSON object. -/
def Json.get? : Json → String → Option Json
  | .obj fs, k => (fs.find? (fun f => f.1 == k)).map (fun f => f.2)
  | _, _ => none

/-- Modelled from the spec: serialization of one sub-score's score and
maximum together with its detail fields. -/
def serializeStructural (st : StructuralScore) : Json :=
  .obj [("score", .num st.score), ("max", .num st.max),
        ("details", .obj [("word_count", .int st.word_count),
                          ("paragraph_count", .int st.paragraph_count)])]

/-- Serialization of the language-quality sub-score. -/
def serializeLanguage (lq : LanguageScore) : Json :=
  .obj [("score", .num lq.score), ("max", .num lq.max),
        ("details", .obj (lq.details.map
          (fun r => (r.dimension,
            Json.obj [("score", .num r.score), ("comment", .str r.comment)]))))]

/-- Serialization of the historical-similarity sub-score. -/
def serializeHistorical (hs : HistoricalScore) : Json :=
  .obj [("score", .num hs.score), ("max", .num hs.max),
        ("details", .obj [("avg_similarity", .num hs.avg_similarity),
                          ("consistency", .str hs.consistency_note)])]

/-- Modelled from the spec: the serialized style-scoring response — nested
`breakdown.structural`, `breakdown.language_quality`,
`breakdown.historical_similarity`, plus top-level numeric `style_score` and
letter `grade`. -/
def serializeStyle (b : StyleScoreBreakdown) : Json :=
  .obj [("style_score", .int b.style_score),
        ("grade", .str b.grade),
        ("breakdown", .obj
          [("structural", serializeStructural b.structural),
           ("language_quality", serializeLanguage b.language_quality),
           ("historical_similarity", serializeHistorical b.historical_similarity)])]

/-- The style-score object handed to the frontend StyleScoreCard component:
each field may be absent or hold a possibly falsy value, as in JavaScript. -/
structure JsStyleScore where
  grade : Option String
  style_score : Option ℚ
  percentage : Option ℚ
deriving DecidableEq, Repr

/-- JavaScript `a || b` on a string field: the empty string is falsy. -/
def jsOrStr (v : Option String) (dflt : String) : String :=
  match v with
  | some s => if s = "" then dflt else s
  | none => dflt

/-- JavaScript `a || b` on a numeric field: 0 is falsy. -/
def jsOrNum (v : Option ℚ) (dflt : ℚ) : ℚ :=
  match v with
  | some x => if x = 0 then dflt else x
  | none => dflt

/-- From src/frontend/src/components/StyleScoreCard.jsx line 60: the grade
rendered by the card is the grade field with fallback B. -/
def displayedGrade (sc : JsStyleScore) : String := jsOrStr sc.grade "B"

/-- From src/frontend/src/components/StyleScoreCard.jsx line 61: the overall
score rendered by the card, rounding the style_score field with fallback to
percentage and then 0. -/
def displayedScore (sc : JsStyleScore) : ℤ :=
  round (jsOrNum sc.style_score (jsOrNum sc.percentage 0))

/-- A nonempty metric list always has a nearest entry. -/
theorem nearestMetric_isSome (c : NumericClaim) :
    ∀ l : List MetricEntry, l ≠ [] → ∃ m, nearestMetric c l = some m := by
  intro l hl
  match l with
  | [] => exact absurd rfl hl
  | m :: ms =>
    cases h : nearestMetric c ms with
    | none => exact ⟨m, by simp [nearestMetric, h]⟩
    | some m2 =>
      by_cases hle : absQ (c.value - m.value) ≤ absQ (c.value - m2.value)
      · exact ⟨m, by simp [nearestMetric, h, hle]⟩
      · exact ⟨m2, by simp [nearestMetric, h, hle]⟩

/-- C1: for every validation call, the returned verdict satisfies
`valid = deterministic_valid && semantic_valid`, its sub-verdicts are exactly
those of the deterministic validator and of the defensively parsed semantic
reply, and its error sequence is the deterministic errors followed by the
semantic errors, the deterministic ones keeping their positions. -/
theorem validate_combines (report : String) (metrics : List MetricEntry)
    (resp : CollabResponse) :
    (validate report metrics resp).valid =
      ((validate report metrics resp).deterministic_valid &&
        (validate report metrics resp).semantic_valid) ∧
    (validate report metrics resp).deterministic_valid =
      (deterministicValidate (extractClaims report) metrics).deterministic_valid ∧
    (validate report metrics resp).semantic_valid =
      (parseSemanticResponse resp).semantic_valid ∧
    (validate report metrics resp).errors =
      (deterministicValidate (extractClaims report) metrics).errors ++
        (parseSemanticResponse resp).errors ∧
    ∀ i : ℕ,
      i < (deterministicValidate (extractClaims report) metrics).errors.length →
      (validate report metrics resp).errors[i]? =
        (deterministicValidate (extractClaims report) metrics).errors[i]? := by
  refine ⟨rfl, rfl, rfl, rfl, ?_⟩
  intro i hi
  show ((deterministicValidate (extractClaims report) metrics).errors ++
    (parseSemanticResponse resp).errors)[i]? = _
  rw [List.getElem?_append_left hi]

/-- C1 witness at a concrete report, metrics record and collaborator
reply. -/
theorem validate_combines_witness :
    (validate "ACWI gained 9.0% this quarter."
        [⟨"acwi_quarter_return", mkRat 41 5, false⟩]
        (.ok true [])).valid =
      ((validate "ACWI gained 9.0% this quarter."
          [⟨"acwi_quarter_return", mkRat 41 5, false⟩]
          (.ok true [])).deterministic_valid &&
        (validate "ACWI gained 9.0% this quarter."
          [⟨"acwi_quarter_return", mkRat 41 5, false⟩]
          (.ok true [])).semantic_valid) ∧
    (validate "ACWI gained 9.0% this quarter."
        [⟨"acwi_quarter_return", mkRat 41 5, false⟩]
        (.ok true [])).deterministic_valid =
      (deterministicValidate
        (extractClaims "ACWI gained 9.0% this quarter.")
        [⟨"acwi_quarter_return", mkRat 41 5, false⟩]).deterministic_valid ∧
    (validate "ACWI gained 9.0% this quarter."
        [⟨"acwi_quarter_return", mkRat 41 5, false⟩]
        (.ok true [])).semantic_valid =
      (parseSemanticResponse (.ok true [])).semantic_valid ∧
    (validate "ACWI gained 9.0% this quarter."
        [⟨"acwi_quarter_return", mkRat 41 5, false⟩]
        (.ok true [])).errors =
      (deterministicValidate
        (extractClaims "ACWI gained 9.0% this quarter.")
        [⟨"acwi_quarter_return", mkRat 41 5, false⟩]).errors ++
        (parseSemanticResponse (.ok true [])).errors ∧
    ∀ i : ℕ,
      i < (deterministicValidate
        (extractClaims "ACWI gained 9.0% this quarter.")
        [⟨"acwi_quarter_return", mkRat 41 5, false⟩]).errors.length →
      (validate "ACWI gained 9.0% this quarter."
          [⟨"acwi_quarter_return", mkRat 41 5, false⟩]
          (.ok true [])).errors[i]? =
        (deterministicValidate
          (extractClaims "ACWI gained 9.0% this quarter.")
          [⟨"acwi_quarter_return", mkRat 41 5, false⟩]).errors[i]? :=
  validate_combines "ACWI gained 9.0% this quarter."
    [⟨"acwi_quarter_return", mkRat 41 5, false⟩] (.ok true [])

/-- C2: the deterministic validator is valid iff its error list is empty; a
claim with no compatible metric contributes an unsupported-number error; a
claim with compatible metrics, none within tolerance, contributes a
mismatched-number error naming the claimed and the nearest expected value. -/
theorem deterministicValidate_spec (claims : List NumericClaim)
    (metrics : List MetricEntry) :
    ((deterministicValidate claims metrics).deterministic_valid = true ↔
      (deterministicValidate claims metrics).errors = []) ∧
    (∀ c ∈ claims, metrics.filter (fun m => compatible c m) = [] →
      unsupportedMsg c ∈ (deterministicValidate claims metrics).errors) ∧
    (∀ c ∈ claims, ∀ m0 ∈ metrics.filter (fun m => compatible c m),
      (∀ m ∈ metrics.filter (fun m => compatible c m),
        withinTolerance c m = false) →
      ∃ m, nearestMetric c (metrics.filter (fun m => compatible c m)) = some m ∧
        mismatchedMsg c m ∈ (deterministicValidate claims metrics).errors) := by
  refine ⟨?_, ?_, ?_⟩
  · simp [deterministicValidate, List.isEmpty_iff]
  · intro c hc hcomp
    have : unsupportedMsg c ∈ claimErrors metrics c := by
      simp [claimErrors, hcomp]
    exact List.mem_flatMap.mpr ⟨c, hc, this⟩
  · intro c hc m0 hm0 hnone
    have hne : metrics.filter (fun m => compatible c m) ≠ [] := by
      intro h
      rw [h] at hm0
      exact absurd hm0 (List.not_mem_nil m0)
    obtain ⟨m, hm⟩ := nearestMetric_isSome c _ hne
    refine ⟨m, hm, ?_⟩
    have hany : (metrics.filter (fun m => compatible c m)).any
        (fun m => withinTolerance c m) = false :=
      List.any_eq_false.mpr (fun x hx => by simp [hnone x hx])
    have : mismatchedMsg c m ∈ claimErrors metrics c := by
      simp [claimErrors, List.isEmpty_iff, hne, hany, hm]
    exact List.mem_flatMap.mpr ⟨c, hc, this⟩

/-- C2 witness: the end-to-end scenario with a claimed 9.0 percent against
an expected 8.2 percent metric produces the mismatched-number error. -/
theorem deterministicValidate_spec_witness :
    ∃ m, nearestMetric ⟨9, .percentage, 2⟩
        (List.filter (fun m => compatible ⟨9, .percentage, 2⟩ m)
          [⟨"acwi_quarter_return", mkRat 41 5, false⟩,
           ⟨"sp500_new_highs", 21, true⟩]) = some m ∧
      mismatchedMsg ⟨9, .percentage, 2⟩ m ∈
        (deterministicValidate [⟨9, .percentage, 2⟩]
          [⟨"acwi_quarter_return", mkRat 41 5, false⟩,
           ⟨"sp500_new_highs", 21, true⟩]).errors := by
  refine (deterministicValidate_spec [⟨9, .percentage, 2⟩]
      [⟨"acwi_quarter_return", mkRat 41 5, false⟩,
       ⟨"sp500_new_highs", 21, true⟩]).2.2
    ⟨9, .percentage, 2⟩ (by decide)
    ⟨"acwi_quarter_return", mkRat 41 5, false⟩ (by decide) ?_
  intro m hm
  have hfil : List.filter
      (fun m => compatible ⟨9, .percentage, 2⟩ m)
      [⟨"acwi_quarter_return", mkRat 41 5, false⟩,
       ⟨"sp500_new_highs", 21, true⟩] =
      [⟨"acwi_quarter_return", mkRat 41 5, false⟩] := by decide
  rw [hfil] at hm
  have hme : m = ⟨"acwi_quarter_return", mkRat 41 5, false⟩ :=
    List.mem_singleton.mp hm
  subst hme
  norm_num [withinTolerance, absQ, tolerance]

/-- C6: whenever the collaborator reply is not a well-formed structured
result, the engine still returns a structured semantic result with
semantic_valid false and a single generic error. -/
theorem parseSemanticResponse_degrades (r : CollabResponse)
    (h : ∀ v errs, r ≠ .ok v errs) :
    (parseSemanticResponse r).semantic_valid = false ∧
    (parseSemanticResponse r).errors = [genericSemanticError] := by
  cases r with
  | ok v errs => exact absurd rfl (h v errs)
  | malformed raw => exact ⟨rfl, rfl⟩
  | missingFields => exact ⟨rfl, rfl⟩
  | timeout => exact ⟨rfl, rfl⟩

/-- C6 witness: a timeout degrades to the single-generic-error result. -/
theorem parseSemanticResponse_degrades_witness :
    (parseSemanticResponse .timeout).semantic_valid = false ∧
    (parseSemanticResponse .timeout).errors = [genericSemanticError] :=
  parseSemanticResponse_degrades .timeout
    (fun _ _ h => CollabResponse.noConfusion h)

/-- C9: the serialized style-scoring response carries the three nested
sub-score objects under `breakdown` and the top-level numeric `style_score`
and letter `grade`. -/
theorem serializeStyle_shape (b : StyleScoreBreakdown) :
    (serializeStyle b).get? "style_score" = some (Json.int b.style_score) ∧
    (serializeStyle b).get? "grade" = some (Json.str b.grade) ∧
    (((serializeStyle b).get? "breakdown").bind
      (fun j => j.get? "structural")) = some (serializeStructural b.structural) ∧
    (((serializeStyle b).get? "breakdown").bind
      (fun j => j.get? "language_quality")) =
        some (serializeLanguage b.language_quality) ∧
    (((serializeStyle b).get? "breakdown").bind
      (fun j => j.get? "historical_similarity")) =
        some (serializeHistorical b.historical_similarity) :=
  ⟨rfl, rfl, rfl, rfl, rfl⟩

/-- C10: the StyleScoreCard component falls back to grade B when the grade
field is absent or falsy, and displays an overall score of 0 when both the
style_score and percentage fields are absent or falsy. -/
theorem styleScoreCard_fallbacks (sc : JsStyleScore) :
    ((sc.grade = none ∨ sc.grade = some "") → displayedGrade sc = "B") ∧
    ((sc.style_score = none ∨ sc.style_score = some 0) →
      (sc.percentage = none ∨ sc.percentage = some 0) →
      displayedScore sc = 0) := by
  constructor
  · rintro (h | h) <;> simp [displayedGrade, jsOrStr, h]
  · rintro (h | h) (h2 | h2) <;> simp [displayedScore, jsOrNum, h, h2]

/-- C10 witness: a style-score object with no grade, a zero style_score and
no percentage renders grade B and overall score 0. -/
theorem styleScoreCard_fallbacks_witness :
    displayedGrade ⟨none, some 0, none⟩ = "B" ∧
    displayedScore ⟨none, some 0, none⟩ = 0 :=
  ⟨(styleScoreCard_fallbacks ⟨none, some 0, none⟩).1 (Or.inl rfl),
   (styleScoreCard_fallbacks ⟨none, some 0, none⟩).2 (Or.inr rfl) (Or.inl rfl)⟩

/-- Overwriting by id does not change the stored id sequence. -/
theorem upsert_ids_of_present (s : VectorStore) (c : CorpusChunk)
    (h : s.any (fun x => x.id == c.id) = true) :
    (upsert s c).map (fun x => x.id) = s.map (fun x => x.id) := by
  unfold upsert
  rw [if_pos h, List.map_map]
  refine List.map_congr_left ?_
  intro x _
  show (if x.id = c.id then c else x).id = x.id
  by_cases hx : x.id = c.id
  · rw [if_pos hx, hx]
  · rw [if_neg hx]

/-- Upsert preserves the distinct-ids invariant of the store. -/
theorem upsert_wf (s : VectorStore) (c : CorpusChunk) (h : StoreWF s) :
    StoreWF (upsert s c) := by
  by_cases hp : s.any (fun x => x.id == c.id) = true
  · unfold StoreWF
    rw [upsert_ids_of_present s c hp]
    exact h
  · unfold StoreWF upsert
    rw [if_neg hp, List.map_append]
    refine List.nodup_append.mpr ⟨h, List.nodup_singleton _, ?_⟩
    intro i hi hic
    rcases List.mem_map.mp hi with ⟨x, hx, hxi⟩
    rcases List.mem_singleton.mp hic with rfl
    have := List.any_eq_false.mp (Bool.eq_false_iff.mpr hp) x hx
    simp only [beq_iff_eq] at this
    exact this hxi

/-- Upserting a chunk that is already stored verbatim leaves a well-formed
store unchanged. -/
theorem upsert_mem_eq_self (s : VectorStore) (c : CorpusChunk)
    (hwf : StoreWF s) (hc : c ∈ s) : upsert s c = s := by
  have hp : s.any (fun x => x.id == c.id) = true :=
    List.any_eq_true.mpr ⟨c, hc, beq_self_eq_true c.id⟩
  unfold upsert
  rw [if_pos hp]
  have huniq : ∀ x ∈ s, x.id = c.id → x = c := by
    intro x hx hxid
    exact List.inj_on_of_nodup_map hwf hx hc hxid
  calc s.map (fun x => if x.id = c.id then c else x)
      = s.map id := by
        refine List.map_congr_left ?_
        intro x hx
        by_cases hxid : x.id = c.id
        · simp only [if_pos hxid, id_eq]
          exact (huniq x hx hxid).symm
        · simp only [if_neg hxid, id_eq]
    _ = s := List.map_id s

/-- Lookup of a chunk by id. -/
def findChunk (s : VectorStore) (i : ChunkId) : Option CorpusChunk :=
  s.find? (fun x => x.id == i)

/-- After an upsert, lookup at the upserted id returns the new chunk. -/
theorem findChunk_upsert_self (s : VectorStore) (c : CorpusChunk) :
    findChunk (upsert s c) c.id = some c := by
  unfold upsert
  by_cases hp : s.any (fun x => x.id == c.id) = true
  · rw [if_pos hp]
    induction s with
    | nil => simp at hp
    | cons x xs ih =>
      by_cases hx : x.id = c.id
      · simp [findChunk, List.find?_cons, if_pos hx]
      · have hxs : xs.any (fun y => y.id == c.id) = true := by
          rcases List.any_eq_true.mp hp with ⟨y, hy, hyp⟩
          rcases List.mem_cons.mp hy with rfl | hy2
          · exact absurd (beq_iff_eq.mp hyp) hx
          · exact List.any_eq_true.mpr ⟨y, hy2, hyp⟩
        have := ih hxs
        simpa [findChunk, List.find?_cons, if_neg hx, hx] using this
  · rw [if_neg hp]
    unfold findChunk
    rw [List.find?_append]
    have hnone : s.find? (fun x => x.id == c.id) = none := by
      refine List.find?_eq_none.mpr ?_
      intro x hx
      exact List.any_eq_false.mp
        (Bool.eq_false_iff.mpr hp) x hx
    rw [hnone]
    simp [List.find?_cons]

/-- An upsert does not disturb lookups at other ids. -/
theorem findChunk_upsert_other (s : VectorStore) (c : CorpusChunk)
    (i : ChunkId) (hne : i ≠ c.id) :
    findChunk (upsert s c) i = findChunk s i := by
  unfold upsert
  by_cases hp : s.any (fun x => x.id == c.id) = true
  · rw [if_pos hp]
    induction s with
    | nil => rfl
    | cons x xs ih =>
      by_cases hx : x.id = c.id
      · have hxne : (x.id == i) = false := by
          simp only [beq_eq_false_iff_ne, ne_eq, hx]
          exact fun h => hne h.symm
        have hcne : (c.id == i) = false := by
          simp only [beq_eq_false_iff_ne, ne_eq]
          exact fun h => hne h.symm
        by_cases hxs : xs.any (fun y => y.id == c.id) = true
        · have := ih hxs
          simpa [findChunk, List.find?_cons, if_pos hx, hcne, hxne] using this
        · have hmap : xs.map (fun y => if y.id = c.id then c else y) = xs := by
            refine (List.map_congr_left ?_).trans (List.map_id xs)
            intro y hy
            have h0 := List.any_eq_false.mp
              (Bool.eq_false_iff.mpr hxs) y hy
            have hne2 : y.id ≠ c.id := by simpa using h0
            rw [if_neg hne2]
            rfl
          simp [findChunk, List.find?_cons, if_pos hx, hcne, hxne, hmap]
      · by_cases hxi : (x.id == i) = true
        · simp [findChunk, List.find?_cons, if_neg hx, hxi]
        · have hxiF : (x.id == i) = false := eq_false_of_ne_true hxi
          by_cases hxs : xs.any (fun y => y.id == c.id) = true
          · have := ih hxs
            simpa [findChunk, List.find?_cons, if_neg hx, hxiF] using this
          · have hmap : xs.map (fun y => if y.id = c.id then c else y) = xs := by
              refine (List.map_congr_left ?_).trans (List.map_id xs)
              intro y hy
              have h0 := List.any_eq_false.mp
                (Bool.eq_false_iff.mpr hxs) y hy
              have hne2 : y.id ≠ c.id := by simpa using h0
              rw [if_neg hne2]
              rfl
            simp [findChunk, List.find?_cons, if_neg hx, hxiF, hmap]
  · rw [if_neg hp]
    unfold findChunk
    rw [List.find?_append]
    have hcne : (c.id == i) = false := by
      simp only [beq_eq_false_iff_ne, ne_eq]
      exact fun h => hne h.symm
    cases hfind : s.find? (fun x => x.id == i) with
    | none => simp [List.find?_cons, hcne]
    | some y => simp

/-- A fold of upserts whose chunks all avoid id `i` does not disturb the
lookup at `i`. -/
theorem findChunk_foldl_other (cs : List CorpusChunk) (s : VectorStore)
    (i : ChunkId) (h : ∀ x ∈ cs, x.id ≠ i) :
    findChunk (cs.foldl upsert s) i = findChunk s i := by
  induction cs generalizing s with
  | nil => rfl
  | cons c cs ih =>
    rw [List.foldl_cons, ih (upsert s c) (fun x hx => h x (List.mem_cons_of_mem c hx)),
      findChunk_upsert_other s c i (fun he => h c (List.mem_cons_self c cs) he.symm)]

/-- A fold of upserts preserves the distinct-ids invariant. -/
theorem foldl_upsert_wf (cs : List CorpusChunk) (s : VectorStore)
    (h : StoreWF s) : StoreWF (cs.foldl upsert s) := by
  induction cs generalizing s with
  | nil => exact h
  | cons c cs ih => exact ih (upsert s c) (upsert_wf s c h)

/-- Re-folding the same chunk sequence with pairwise distinct ids over an
already ingested well-formed store is a no-op. -/
theorem foldl_upsert_idem (cs : List CorpusChunk) (s : VectorStore)
    (hwf : StoreWF s) (hnd : (cs.map (fun c => c.id)).Nodup) :
    cs.foldl upsert (cs.foldl upsert s) = cs.foldl upsert s := by
  induction cs generalizing s with
  | nil => rfl
  | cons c cs ih =>
    rw [List.map_cons, List.nodup_cons] at hnd
    have hnotin : ∀ x ∈ cs, x.id ≠ c.id := by
      intro x hx he
      exact hnd.1 (he ▸ List.mem_map_of_mem (fun y => y.id) hx)
    rw [List.foldl_cons]
    have hfound : findChunk (cs.foldl upsert (upsert s c)) c.id = some c := by
      rw [findChunk_foldl_other cs (upsert s c) c.id hnotin]
      exact findChunk_upsert_self s c
    have hwfT : StoreWF (cs.foldl upsert (upsert s c)) :=
      foldl_upsert_wf cs (upsert s c) (upsert_wf s c hwf)
    have hmem : c ∈ cs.foldl upsert (upsert s c) :=
      List.mem_of_find?_eq_some hfound
    rw [List.foldl_cons, upsert_mem_eq_self _ c hwfT hmem]
    exact ih (upsert s c) (upsert_wf s c hwf) hnd.2

/-- The ids produced by chunking one document are the source name paired
with consecutive offsets, hence pairwise distinct. -/
theorem chunkDocument_ids (embed : String → List ℚ) (src text : String) :
    (chunkDocument embed src text).map (fun c => c.id) =
      (List.range (mergeShort (paragraphsOf text)).length).map
        (fun i => (src, i)) := by
  unfold chunkDocument
  rw [List.map_map]
  have : ((fun c : CorpusChunk => c.id) ∘ fun pr : ℕ × List Char =>
      ({ id := (src, pr.1), text := ⟨pr.2⟩,
         embedding := embed ⟨pr.2⟩ } : CorpusChunk)) =
      (fun i => (src, i)) ∘ Prod.fst := rfl
  rw [this, ← List.map_map, List.enum_map_fst]

/-- Chunk ids are distinct within one document. -/
theorem chunkDocument_ids_nodup (embed : String → List ℚ) (src text : String) :
    ((chunkDocument embed src text).map (fun c => c.id)).Nodup := by
  rw [chunkDocument_ids]
  exact (List.nodup_range _).map (fun a b h => (Prod.mk.injEq _ _ _ _ ▸ h).2)

/-- Every chunk id of a document carries that document's source name. -/
theorem chunkDocument_ids_src (embed : String → List ℚ) (src text : String) :
    ∀ i ∈ (chunkDocument embed src text).map (fun c => c.id), i.1 = src := by
  rw [chunkDocument_ids]
  intro i hi
  rcases List.mem_map.mp hi with ⟨j, _, rfl⟩
  rfl

/-- With pairwise distinct source names, the ids of a whole corpus are
pairwise distinct. -/
theorem corpusChunks_ids_nodup (embed : String → List ℚ)
    (corpus : List (String × String))
    (hsrc : (corpus.map Prod.fst).Nodup) :
    ((corpusChunks embed corpus).map (fun c => c.id)).Nodup := by
  unfold corpusChunks
  rw [List.map_flatMap]
  refine List.nodup_flatMap.mpr ⟨?_, ?_⟩
  · intro doc _
    exact chunkDocument_ids_nodup embed doc.1 doc.2
  · have hpw : corpus.Pairwise (fun d1 d2 => d1.1 ≠ d2.1) := by
      have := (List.pairwise_map.mp hsrc)
      exact this.imp (fun h => h)
    refine hpw.imp ?_
    intro d1 d2 hne
    intro i hi1 hi2
    have h1 := chunkDocument_ids_src embed d1.1 d1.2 i hi1
    have h2 := chunkDocument_ids_src embed d2.1 d2.2 i hi2
    exact hne (h1 ▸ h2 ▸ rfl)

/-- C3: re-ingesting an unchanged corpus with pairwise distinct source names
into a well-formed store leaves the chunk collection, and hence the chunk
count, identical. -/
theorem ingest_idempotent (embed : String → List ℚ) (s : VectorStore)
    (corpus : List (String × String)) (hs : StoreWF s)
    (hsrc : (corpus.map Prod.fst).Nodup) :
    ingest embed (ingest embed s corpus) corpus = ingest embed s corpus ∧
    (ingest embed (ingest embed s corpus) corpus).length =
      (ingest embed s corpus).length := by
  have h := foldl_upsert_idem (corpusChunks embed corpus) s hs
    (corpusChunks_ids_nodup embed corpus hsrc)
  exact ⟨h, by rw [show ingest embed (ingest embed s corpus) corpus =
    ingest embed s corpus from h]⟩

/-- C3 witness: re-ingesting a concrete two-document corpus into the empty
store is a no-op. -/
theorem ingest_idempotent_witness :
    ingest (fun t => [mkRat t.length 1])
        (ingest (fun t => [mkRat t.length 1]) []
          [("q1_report", "Markets rallied."), ("q2_report", "Markets fell.")])
        [("q1_report", "Markets rallied."), ("q2_report", "Markets fell.")] =
      ingest (fun t => [mkRat t.length 1]) []
        [("q1_report", "Markets rallied."), ("q2_report", "Markets fell.")] ∧
    (ingest (fun t => [mkRat t.length 1])
        (ingest (fun t => [mkRat t.length 1]) []
          [("q1_report", "Markets rallied."), ("q2_report", "Markets fell.")])
        [("q1_report", "Markets rallied."), ("q2_report", "Markets fell.")]).length =
      (ingest (fun t => [mkRat t.length 1]) []
        [("q1_report", "Markets rallied."), ("q2_report", "Markets fell.")]).length :=
  ingest_idempotent (fun t => [mkRat t.length 1]) []
    [("q1_report", "Markets rallied."), ("q2_report", "Markets fell.")]
    List.nodup_nil (by decide)

/-- The nearest-first query order is total. -/
theorem queryRel_total (d : CorpusChunk → ℚ) (a b : CorpusChunk) :
    queryRel d a b ∨ queryRel d b a := by
  rcases lt_trichotomy (d a) (d b) with h | h | h
  · exact Or.inl (Or.inl h)
  · rcases lt_trichotomy a.id.1 b.id.1 with h2 | h2 | h2
    · exact Or.inl (Or.inr ⟨h, Or.inl h2⟩)
    · rcases Nat.le_total a.id.2 b.id.2 with h3 | h3
      · exact Or.inl (Or.inr ⟨h, Or.inr ⟨h2, h3⟩⟩)
      · exact Or.inr (Or.inr ⟨h.symm, Or.inr ⟨h2.symm, h3⟩⟩)
    · exact Or.inr (Or.inr ⟨h.symm, Or.inl h2⟩)
  · exact Or.inr (Or.inl h)

instance (d : CorpusChunk → ℚ) : IsTotal CorpusChunk (queryRel d) :=
  ⟨queryRel_total d⟩

/-- The id order is transitive. -/
theorem idLe_trans {a b c : ChunkId} (h1 : idLe a b) (h2 : idLe b c) :
    idLe a c := by
  rcases h1 with h1 | ⟨he1, hl1⟩
  · rcases h2 with h2 | ⟨he2, hl2⟩
    · exact Or.inl (lt_trans h1 h2)
    · exact Or.inl (he2 ▸ h1)
  · rcases h2 with h2 | ⟨he2, hl2⟩
    · exact Or.inl (he1 ▸ h2)
    · exact Or.inr ⟨he1.trans he2, le_trans hl1 hl2⟩

/-- The nearest-first query order is transitive. -/
theorem queryRel_trans (d : CorpusChunk → ℚ) (a b c : CorpusChunk)
    (h1 : queryRel d a b) (h2 : queryRel d b c) : queryRel d a c := by
  rcases h1 with h1 | ⟨he1, hl1⟩
  · rcases h2 with h2 | ⟨he2, hl2⟩
    · exact Or.inl (lt_trans h1 h2)
    · exact Or.inl (he2 ▸ h1)
  · rcases h2 with h2 | ⟨he2, hl2⟩
    · exact Or.inl (he1 ▸ h2)
    · exact Or.inr ⟨he1.trans he2, idLe_trans hl1 hl2⟩

instance (d : CorpusChunk → ℚ) : IsTrans CorpusChunk (queryRel d) :=
  ⟨queryRel_trans d⟩

/-- C4: for every store state, query vector and requested k, the query
returns min(k, store size) chunks of the store, ordered by non-decreasing
distance to the query vector with equal distances broken by ascending chunk
id. -/
theorem query_spec (dist : List ℚ → List ℚ → ℚ) (s : VectorStore)
    (v : List ℚ) (k : ℕ) :
    (query dist s v k).length = min k s.length ∧
    (∀ c ∈ query dist s v k, c ∈ s) ∧
    (query dist s v k).Pairwise
      (queryRel (fun c => dist c.embedding v)) := by
  refine ⟨?_, ?_, ?_⟩
  · unfold query
    rw [List.length_take, List.length_insertionSort]
  · intro c hc
    have hsub := (List.take_sublist k
      (List.insertionSort (queryRel (fun c => dist c.embedding v)) s)).subset hc
    exact (List.mem_insertionSort _).mp hsub
  · exact List.Pairwise.sublist
      (List.take_sublist k _)
      (List.sorted_insertionSort (queryRel (fun c => dist c.embedding v)) s)

/-- C4 witness: querying a concrete two-chunk store with k larger than the
store returns exactly two chunks. -/
theorem query_spec_witness :
    (query (fun _ _ => 0)
      [⟨("b", 0), "x", [1]⟩, ⟨("a", 0), "y", [2]⟩] [] 5).length = min 5 2 :=
  (query_spec (fun _ _ => 0)
    [⟨("b", 0), "x", [1]⟩, ⟨("a", 0), "y", [2]⟩] [] 5).1

/-- C7: querying an empty store returns the empty sequence rather than an
error, and scoring any report against an empty corpus yields a
historical-similarity sub-score of 0 with a no-historical-data note while
the structural and language-quality sub-scores are exactly those computed
from the report and the judge ratings alone, for every store. -/
theorem emptyStore_degrades (dist : List ℚ → List ℚ → ℚ)
    (embed : String → List ℚ) (ratings : List DimensionRating)
    (report : String) (v : List ℚ) (k : ℕ) :
    query dist [] v k = [] ∧
    (styleBreakdown dist [] embed ratings report).historical_similarity.score
      = 0 ∧
    (styleBreakdown dist [] embed ratings
      report).historical_similarity.consistency_note = "no historical data" ∧
    (∀ s : VectorStore,
      (styleBreakdown dist s embed ratings report).structural =
        structuralScore report) ∧
    (∀ s : VectorStore,
      (styleBreakdown dist s embed ratings report).language_quality =
        languageScore ratings) := by
  refine ⟨?_, rfl, rfl, fun _ => rfl, fun _ => rfl⟩
  unfold query
  rw [show List.insertionSort
    (queryRel (fun c => dist c.embedding v)) [] = [] from rfl, List.take_nil]

/-- A clamped value lies in the clamping interval. -/
theorem clampQ_mem (lo hi x : ℚ) (h : lo ≤ hi) :
    lo ≤ clampQ lo hi x ∧ clampQ lo hi x ≤ hi :=
  ⟨le_max_left lo _, max_le h (min_le_left hi x)⟩

/-- The word-count part of the structural score lies in 0 to 10. -/
theorem wordBandScore_mem (w : ℕ) :
    0 ≤ wordBandScore w ∧ wordBandScore w ≤ 10 := by
  unfold wordBandScore
  split
  · exact clampQ_mem 0 10 _ (by norm_num)
  · split
    · norm_num
    · exact clampQ_mem 0 10 _ (by norm_num)

/-- The paragraph-count part of the structural score lies in 0 to 10. -/
theorem paraBandScore_mem (p : ℕ) :
    0 ≤ paraBandScore p ∧ paraBandScore p ≤ 10 := by
  unfold paraBandScore
  split
  · norm_num
  · exact clampQ_mem 0 10 _ (by norm_num)

/-- The structural sub-score lies in its 0 to max range. -/
theorem structuralScore_mem (text : String) :
    0 ≤ (structuralScore text).score ∧
    (structuralScore text).score ≤ (structuralScore text).max := by
  have h1 := wordBandScore_mem (wordCount text)
  have h2 := paraBandScore_mem (paragraphCount text)
  unfold structuralScore structuralMax
  constructor
  · exact add_nonneg h1.1 h2.1
  · show wordBandScore (wordCount text) + paraBandScore (paragraphCount text) ≤ 20
    linarith [h1.2, h2.2]

/-- The language-quality sub-score lies in its 0 to max range. -/
theorem languageScore_mem (ratings : List DimensionRating) :
    0 ≤ (languageScore ratings).score ∧
    (languageScore ratings).score ≤ (languageScore ratings).max := by
  unfold languageScore languageMax
  simp only []
  by_cases h0 : (ratings.map clampRating).length = 0
  · rw [if_pos h0]
    norm_num
  · rw [if_neg h0]
    have hbounds : ∀ x ∈ (ratings.map clampRating).map (fun r => r.score),
        0 ≤ x ∧ x ≤ 10 := by
      intro x hx
      rcases List.mem_map.mp hx with ⟨r, hr, rfl⟩
      rcases List.mem_map.mp hr with ⟨r0, _, rfl⟩
      exact clampQ_mem 0 10 r0.score (by norm_num)
    have hlen : (0:ℚ) < 10 * (ratings.map clampRating).length := by
      have : 0 < (ratings.map clampRating).length := Nat.pos_of_ne_zero h0
      have hq : (0:ℚ) < (ratings.map clampRating).length := by exact_mod_cast this
      linarith
    have hsum0 : 0 ≤ ((ratings.map clampRating).map (fun r => r.score)).sum :=
      List.sum_nonneg (fun x hx => (hbounds x hx).1)
    have hsumle : ((ratings.map clampRating).map (fun r => r.score)).sum ≤
        10 * (ratings.map clampRating).length := by
      calc ((ratings.map clampRating).map (fun r => r.score)).sum ≤
          ((ratings.map clampRating).map (fun r => r.score)).length • (10:ℚ) :=
            List.sum_le_card_nsmul _ 10 (fun x hx => (hbounds x hx).2)
        _ = 10 * (ratings.map clampRating).length := by
            rw [nsmul_eq_mul, List.length_map]; ring
    constructor
    · exact mul_nonneg (div_nonneg hsum0 hlen.le) (by norm_num)
    · have h1 : ((ratings.map clampRating).map (fun r => r.score)).sum /
          (10 * (ratings.map clampRating).length) ≤ 1 := by
        rw [div_le_one hlen]
        exact hsumle
      calc ((ratings.map clampRating).map (fun r => r.score)).sum /
          (10 * (ratings.map clampRating).length) * 50 ≤ 1 * 50 :=
            mul_le_mul_of_nonneg_right h1 (by norm_num)
        _ = 50 := by norm_num

/-- The average of a nonempty list of values in 0 to 100 lies in 0 to
100. -/
theorem avgOf_mem (l : List ℚ) (hne : l ≠ [])
    (h : ∀ x ∈ l, 0 ≤ x ∧ x ≤ 100) : 0 ≤ avgOf l ∧ avgOf l ≤ 100 := by
  have hlen : (0:ℚ) < l.length := by
    have := List.length_pos.mpr hne
    exact_mod_cast this
  constructor
  · exact div_nonneg (List.sum_nonneg (fun x hx => (h x hx).1)) hlen.le
  · rw [avgOf, div_le_iff₀ hlen]
    calc l.sum ≤ l.length • (100:ℚ) :=
        List.sum_le_card_nsmul l 100 (fun x hx => (h x hx).2)
      _ = 100 * l.length := by rw [nsmul_eq_mul]; ring

/-- The historical-similarity sub-score lies in its 0 to max range. -/
theorem historicalScore_mem (dist : List ℚ → List ℚ → ℚ) (s : VectorStore)
    (emb : List ℚ) :
    0 ≤ (historicalScore dist s emb).score ∧
    (historicalScore dist s emb).score ≤ (historicalScore dist s emb).max := by
  unfold historicalScore historicalMax
  by_cases hres : (query dist s emb 3).isEmpty
  · rw [if_pos hres]
    norm_num
  · rw [if_neg hres]
    simp only []
    have hne : (query dist s emb 3).map
        (fun c => similarityOf (dist c.embedding emb)) ≠ [] := by
      intro h
      rw [List.map_eq_nil_iff] at h
      rw [h] at hres
      exact hres rfl
    have havg := avgOf_mem _ hne ?_
    · constructor
      · exact mul_nonneg (div_nonneg havg.1 (by norm_num)) (by norm_num)
      · have h1 : avgOf ((query dist s emb 3).map
            (fun c => similarityOf (dist c.embedding emb))) / 100 ≤ 1 := by
          rw [div_le_one (by norm_num : (0:ℚ) < 100)]
          exact havg.2
        calc avgOf ((query dist s emb 3).map
              (fun c => similarityOf (dist c.embedding emb))) / 100 * 30 ≤
            1 * 30 := mul_le_mul_of_nonneg_right h1 (by norm_num)
          _ = 30 := by norm_num
    · intro x hx
      rcases List.mem_map.mp hx with ⟨c, _, rfl⟩
      exact clampQ_mem 0 100 _ (by norm_num)

/-- Rounding a nonnegative rational gives a nonnegative integer. -/
theorem round_nonneg_q (x : ℚ) (h : 0 ≤ x) : 0 ≤ round x := by
  rw [round_eq]
  exact Int.floor_nonneg.mpr (by linarith)

/-- Rounding a rational at most 100 gives an integer at most 100. -/
theorem round_le_hundred (x : ℚ) (h : x ≤ 100) : round x ≤ 100 := by
  rw [round_eq]
  have hle : x + 1 / 2 ≤ ((100:ℤ):ℚ) + 1 / 2 := by push_cast; linarith
  calc ⌊x + 1 / 2⌋ ≤ ⌊((100:ℤ):ℚ) + 1 / 2⌋ := Int.floor_le_floor hle
    _ = 100 + ⌊(1 / 2 : ℚ)⌋ := Int.floor_int_add 100 (1 / 2 : ℚ)
    _ = 100 := by norm_num

/-- C5: every sub-score lies in its 0 to max range, the aggregate style
score is the rounded weighted sum of the max-normalized sub-scores and lies
in 0 to 100, and the grade is the fixed monotone step function of the
aggregate, with A at 90 and B at 89. -/
theorem styleScorer_invariants (dist : List ℚ → List ℚ → ℚ) (s : VectorStore)
    (embed : String → List ℚ) (ratings : List DimensionRating)
    (report : String) :
    (0 ≤ (styleBreakdown dist s embed ratings report).structural.score ∧
      (styleBreakdown dist s embed ratings report).structural.score ≤
        (styleBreakdown dist s embed ratings report).structural.max) ∧
    (0 ≤ (styleBreakdown dist s embed ratings report).language_quality.score ∧
      (styleBreakdown dist s embed ratings report).language_quality.score ≤
        (styleBreakdown dist s embed ratings report).language_quality.max) ∧
    (0 ≤ (styleBreakdown dist s embed ratings
        report).historical_similarity.score ∧
      (styleBreakdown dist s embed ratings report).historical_similarity.score ≤
        (styleBreakdown dist s embed ratings
          report).historical_similarity.max) ∧
    (styleBreakdown dist s embed ratings report).style_score =
      round ((styleBreakdown dist s embed ratings report).structural.score /
          (styleBreakdown dist s embed ratings report).structural.max * 20 +
        (styleBreakdown dist s embed ratings report).language_quality.score /
          (styleBreakdown dist s embed ratings report).language_quality.max * 50 +
        (styleBreakdown dist s embed ratings
            report).historical_similarity.score /
          (styleBreakdown dist s embed ratings
            report).historical_similarity.max * 30) ∧
    (0 ≤ (styleBreakdown dist s embed ratings report).style_score ∧
      (styleBreakdown dist s embed ratings report).style_score ≤ 100) ∧
    (styleBreakdown dist s embed ratings report).grade =
      gradeOf (styleBreakdown dist s embed ratings report).style_score ∧
    (∀ z : ℤ, 90 ≤ z → gradeOf z = "A") ∧
    (∀ z : ℤ, 75 ≤ z → z < 90 → gradeOf z = "B") ∧
    (∀ z : ℤ, 60 ≤ z → z < 75 → gradeOf z = "C") ∧
    (∀ z : ℤ, z < 60 → gradeOf z = "D" ∨ gradeOf z = "F") ∧
    gradeOf 90 = "A" ∧ gradeOf 89 = "B" := by
  have hst := structuralScore_mem report
  have hlq := languageScore_mem ratings
  have hhs := historicalScore_mem dist s (embed report)
  have hstm : (structuralScore report).max = 20 := rfl
  have hlqm : (languageScore ratings).max = 50 := rfl
  have hhsm : (historicalScore dist s (embed report)).max = 30 := by
    unfold historicalScore
    by_cases h : (query dist s (embed report) 3).isEmpty
    · simp only [h, if_true]
      rfl
    · simp only [h, if_false]
      rfl
  have hsum0 : 0 ≤ (structuralScore report).score /
      (structuralScore report).max * 20 +
      (languageScore ratings).score / (languageScore ratings).max * 50 +
      (historicalScore dist s (embed report)).score /
        (historicalScore dist s (embed report)).max * 30 := by
    rw [hstm, hlqm, hhsm]
    have := hst.1
    have := hlq.1
    have := hhs.1
    positivity
  have hsum100 : (structuralScore report).score /
      (structuralScore report).max * 20 +
      (languageScore ratings).score / (languageScore ratings).max * 50 +
      (historicalScore dist s (embed report)).score /
        (historicalScore dist s (embed report)).max * 30 ≤ 100 := by
    rw [hstm, hlqm, hhsm]
    have e1 : (structuralScore report).score / 20 * 20 =
        (structuralScore report).score := div_mul_cancel₀ _ (by norm_num)
    have e2 : (languageScore ratings).score / 50 * 50 =
        (languageScore ratings).score := div_mul_cancel₀ _ (by norm_num)
    have e3 : (historicalScore dist s (embed report)).score / 30 * 30 =
        (historicalScore dist s (embed report)).score :=
      div_mul_cancel₀ _ (by norm_num)
    rw [e1, e2, e3]
    have h2 := hst.2
    have h3 := hlq.2
    have h4 := hhs.2
    rw [hstm] at h2
    rw [hlqm] at h3
    rw [hhsm] at h4
    linarith
  refine ⟨hst, hlq, hhs, rfl, ⟨?_, ?_⟩, rfl, ?_, ?_, ?_, ?_, by decide, by decide⟩
  · exact round_nonneg_q _ hsum0
  · exact round_le_hundred _ hsum100
  · intro z hz
    unfold gradeOf
    rw [if_pos hz]
  · intro z h75 h90
    unfold gradeOf
    rw [if_neg (not_le.mpr h90), if_pos h75]
  · intro z h60 h75
    unfold gradeOf
    rw [if_neg (not_le.mpr (lt_of_lt_of_le h75 (by norm_num))),
      if_neg (not_le.mpr h75), if_pos h60]
  · intro z h60
    unfold gradeOf
    rw [if_neg (not_le.mpr (lt_of_lt_of_le h60 (by norm_num))),
      if_neg (not_le.mpr (lt_of_lt_of_le h60 (by norm_num))),
      if_neg (not_le.mpr h60)]
    by_cases h45 : 45 ≤ z
    · exact Or.inl (if_pos h45 ▸ rfl)
    · exact Or.inr (if_neg h45 ▸ rfl)

/-- C5 witness: the grade step function at concrete aggregates, through the
invariants theorem instantiated at a concrete scoring call. -/
theorem styleScorer_invariants_witness :
    gradeOf 95 = "A" ∧ gradeOf 90 = "A" ∧ gradeOf 89 = "B" := by
  obtain ⟨_, _, _, _, _, _, hA, _, _, _, h90, h89⟩ :=
    styleScorer_invariants (fun _ _ => 0) [] (fun _ => []) [] ""
  exact ⟨hA 95 (by norm_num), h90, h89⟩

/-- A classified claim records its own token index and is never a year
token. -/
theorem classifyAt_spec (ts : List (List Char)) (i : ℕ) (c : NumericClaim)
    (h : classifyAt ts i = some c) :
    c.pos = i ∧ isYearAt ts i = false := by
  unfold classifyAt at h
  split at h
  · exact Option.noConfusion h
  · split at h
    · exact Option.noConfusion h
    · rename_i hy
      have hyf : isYearAt ts i = false := Bool.eq_false_iff.mpr hy
      refine ⟨?_, hyf⟩
      split at h
      · rcases Option.map_eq_some'.mp h with ⟨v, hv, rfl⟩
        rfl
      · split at h
        · exact Option.noConfusion h
        · split at h
          · rw [← Option.some_inj.mp h]
          · rw [← Option.some_inj.mp h]

/-- C8: the extractor returns its claims in order of appearance — strictly
increasing token positions — and never emits a year token (a four-digit
token adjacent to a quarter label) as a claim. -/
theorem extractClaims_spec (text : String) :
    (extractClaims text).Pairwise (fun a b => a.pos < b.pos) ∧
    ∀ c ∈ extractClaims text, isYearAt (tokenize text) c.pos = false := by
  constructor
  · unfold extractClaims
    refine List.pairwise_filterMap.mpr ?_
    refine (List.pairwise_lt_range _).imp ?_
    intro i j hij b hb b' hb'
    have h1 := (classifyAt_spec (tokenize text) i b (Option.mem_def.mp hb)).1
    have h2 := (classifyAt_spec (tokenize text) j b' (Option.mem_def.mp hb')).1
    rw [h1, h2]
    exact hij
  · intro c hc
    rcases List.mem_filterMap.mp hc with ⟨i, _, hcl⟩
    have hs := classifyAt_spec (tokenize text) i c hcl
    rw [hs.1]
    exact hs.2

/-- C8 witness: the claim list of a concrete sentence with two year tokens
around a count claim. -/
theorem extractClaims_spec_witness :
    (extractClaims "Q3 2024 saw 21 new highs in 2024 Q4.").Pairwise
      (fun a b => a.pos < b.pos) ∧
    ∀ c ∈ extractClaims "Q3 2024 saw 21 new highs in 2024 Q4.",
      isYearAt (tokenize "Q3 2024 saw 21 new highs in 2024 Q4.") c.pos =
        false :=
  extractClaims_spec "Q3 2024 saw 21 new highs in 2024 Q4."

end AiQuarterly
